import Mathlib

/-!
Shallow embedding of the HAXM guest-memory / io-event management layer
(source: src/hypervisor/src/haxm/vm.rs, struct HaxmVm and its Vm impl).

The external hypervisor driver (ioctl calls made via set_user_memory_region)
is modelled as an oracle: each operation that performs exactly one driver call
takes the driver call's outcome as an explicit `Except Nat Unit` argument.
Machine integers are modelled as Nat with explicit bounds: guest addresses are
u64 (checked_add guards against overflow), and the memory slot minted by
add_memory_region is cast to u32 (`as MemSlot` in the source), modelled by
reduction modulo 2 ^ 32.
-/

namespace Haxm

/-- Decidable equality of Except results, so that concrete runs of the model can be
checked by evaluation. -/
instance {e a : Type} [DecidableEq e] [DecidableEq a] : DecidableEq (Except e a) :=
  fun x y =>
    match x, y with
    | Except.ok u, Except.ok v =>
      if h : u = v then Decidable.isTrue (by rw [h])
      else Decidable.isFalse (fun hc => h (Except.ok.inj hc))
    | Except.error u, Except.error v =>
      if h : u = v then Decidable.isTrue (by rw [h])
      else Decidable.isFalse (fun hc => h (Except.error.inj hc))
    | Except.ok u, Except.error v => Decidable.isFalse (fun hc => Except.noConfusion hc)
    | Except.error u, Except.ok v => Decidable.isFalse (fun hc => Except.noConfusion hc)

/-- Size of the u64 guest-address space (addresses are below this bound). -/
def U64_SIZE : Nat := 2 ^ 64

/-- Size of the u32 memory-slot space (the `as MemSlot` cast truncates mod this). -/
def U32_SIZE : Nat := 2 ^ 32

/-- libc errno EOVERFLOW, returned when guest_addr + size overflows u64. -/
def EOVERFLOW : Nat := 75

/-- libc errno ENOSPC, returned when the candidate range overlaps static guest memory. -/
def ENOSPC : Nat := 28

/-- libc errno ENOENT, returned for an unknown slot or io-event address. -/
def ENOENT : Nat := 2

/-- libc errno ENOTSUP, returned for a datamatch discipline other than AnyLength. -/
def ENOTSUP : Nat := 95

/-- libc errno EEXIST, returned when registering a second ioevent at an address. -/
def EEXIST : Nat := 17

/-- A guest physical address (u64 offset), mirroring vm_memory GuestAddress. -/
structure GuestAddress where
  offset : Nat
deriving DecidableEq, Repr

/-- Abstraction of a Box of MappedRegion: its size() and its as_ptr() raw pointer. -/
structure MappedRegion where
  size : Nat
  ptr : Nat
deriving DecidableEq, Repr

/-- GuestAddress.checked_add: u64 checked addition, none on overflow. -/
def checked_add (a b : Nat) : Option Nat :=
  if a + b < U64_SIZE then some (a + b) else none

/-- Modelled from the spec: GuestMemory.range_overlap of the vm_memory crate is not
under src/. Per the spec (section 3, GuestAddressSpace) the query returns whether the
candidate half-open interval intersects any static region half-open interval.
Static guest memory is a list of (base, length) pairs. -/
def range_overlap (staticMem : List (Nat × Nat)) (start stop : Nat) : Bool :=
  staticMem.any (fun r => max start r.1 < min stop (r.1 + r.2))

/-- An io-event address: a port-IO or memory-mapped-IO address. -/
inductive IoEventAddress where
  | Pio : Nat → IoEventAddress
  | Mmio : Nat → IoEventAddress
deriving DecidableEq, Repr

/-- The datamatch discipline of an io-event registration. -/
inductive Datamatch where
  | AnyLength : Datamatch
  | U8 : Option Nat → Datamatch
  | U16 : Option Nat → Datamatch
  | U32 : Option Nat → Datamatch
  | U64 : Option Nat → Datamatch
deriving DecidableEq, Repr

/-- Lookup in the slot table (BTreeMap MemSlot -> (GuestAddress, mapping),
modelled as a key-sorted association list). -/
def lookupSlot : List (Nat × GuestAddress × MappedRegion) → Nat →
    Option (GuestAddress × MappedRegion)
  | [], _ => none
  | e :: rest, s => if s = e.1 then some e.2 else lookupSlot rest s

/-- BTreeMap insert: place the binding at its key position, replacing any old binding. -/
def insertSorted : List (Nat × GuestAddress × MappedRegion) → Nat → GuestAddress →
    MappedRegion → List (Nat × GuestAddress × MappedRegion)
  | [], s, ga, m => [(s, ga, m)]
  | e :: rest, s, ga, m =>
    if s < e.1 then (s, ga, m) :: e :: rest
    else if s = e.1 then (s, ga, m) :: rest
    else e :: insertSorted rest s ga m

/-- BTreeMap remove: drop the binding of the given key. -/
def eraseSlot : List (Nat × GuestAddress × MappedRegion) → Nat →
    List (Nat × GuestAddress × MappedRegion)
  | [], _ => []
  | e :: rest, s => if s = e.1 then rest else e :: eraseSlot rest s

/-- The gap heap (BinaryHeap of Reverse MemSlot, a min-heap) as an ascending sorted
list whose head is the minimum; push is ordered insertion. -/
def heapPush : List Nat → Nat → List Nat
  | [], s => [s]
  | g :: rest, s => if s ≤ g then s :: g :: rest else g :: heapPush rest s

/-- Lookup in the ioevents map (FnvHashMap IoEventAddress -> Event, modelled as an
association list; Event objects are modelled by the identity of the underlying
kernel object, a Nat, since Event equality in the source is handle identity). -/
def lookupEvt : List (IoEventAddress × Nat) → IoEventAddress → Option Nat
  | [], _ => none
  | e :: rest, a => if a = e.1 then some e.2 else lookupEvt rest a

/-- HashMap remove for the ioevents map. -/
def eraseEvt : List (IoEventAddress × Nat) → IoEventAddress → List (IoEventAddress × Nat)
  | [], _ => []
  | e :: rest, a => if a = e.1 then rest else e :: eraseEvt rest a

/-- The in-process state of a HaxmVm: the static guest memory layout (immutable after
construction), the slot table, the gap heap of reclaimed slots, and the io-event
registry. Driver-side handles (vm_id, descriptor) carry no in-process state. -/
structure HaxmVm where
  guest_mem : List (Nat × Nat)
  mem_regions : List (Nat × GuestAddress × MappedRegion)
  mem_slot_gaps : List Nat
  ioevents : List (IoEventAddress × Nat)
deriving DecidableEq, Repr

/-- Vm::add_memory_region. `driverRes` is the outcome of the one
set_user_memory_region(Add) driver call; the call is only reached when the
overflow and overlap pre-checks pass. `read_only` is forwarded to the driver
and does not affect in-process state. -/
def add_memory_region (vm : HaxmVm) (guest_addr : GuestAddress) (mem : MappedRegion)
    (read_only : Bool) (driverRes : Except Nat Unit) : Except Nat Nat × HaxmVm :=
  let size := mem.size
  match checked_add guest_addr.offset size with
  | none => (Except.error EOVERFLOW, vm)
  | some end_addr =>
    if range_overlap vm.guest_mem guest_addr.offset end_addr then
      (Except.error ENOSPC, vm)
    else
      match vm.mem_slot_gaps with
      | gap :: rest =>
        match driverRes with
        | Except.error e => (Except.error e, { vm with mem_slot_gaps := heapPush rest gap })
        | Except.ok _ =>
          (Except.ok gap,
            { vm with
              mem_regions := insertSorted vm.mem_regions gap guest_addr mem
              mem_slot_gaps := rest })
      | [] =>
        let slot := (vm.mem_regions.length + vm.guest_mem.length) % U32_SIZE
        match driverRes with
        | Except.error e => (Except.error e, { vm with mem_slot_gaps := heapPush [] slot })
        | Except.ok _ =>
          (Except.ok slot,
            { vm with mem_regions := insertSorted vm.mem_regions slot guest_addr mem })

/-- Vm::remove_memory_region. `driverRes` is the outcome of the one
set_user_memory_region(Remove) driver call, reached only when the slot is present. -/
def remove_memory_region (vm : HaxmVm) (slot : Nat) (driverRes : Except Nat Unit) :
    Except Nat MappedRegion × HaxmVm :=
  match lookupSlot vm.mem_regions slot with
  | some gm =>
    match driverRes with
    | Except.error e => (Except.error e, vm)
    | Except.ok _ =>
      (Except.ok gm.2,
        { vm with
          mem_slot_gaps := heapPush vm.mem_slot_gaps slot
          mem_regions := eraseSlot vm.mem_regions slot })
  | none => (Except.error ENOENT, vm)

/-- Vm::register_ioevent. Event::try_clone of the base crate is not under src/ and is
modelled from the spec as yielding a handle to the same underlying object. -/
def register_ioevent (vm : HaxmVm) (evt : Nat) (addr : IoEventAddress)
    (datamatch : Datamatch) : Except Nat Unit × HaxmVm :=
  if datamatch ≠ Datamatch.AnyLength then (Except.error ENOTSUP, vm)
  else if (lookupEvt vm.ioevents addr).isSome then (Except.error EEXIST, vm)
  else (Except.ok (), { vm with ioevents := (addr, evt) :: vm.ioevents })

/-- Vm::unregister_ioevent. -/
def unregister_ioevent (vm : HaxmVm) (evt : Nat) (addr : IoEventAddress)
    (datamatch : Datamatch) : Except Nat Unit × HaxmVm :=
  if datamatch ≠ Datamatch.AnyLength then (Except.error ENOTSUP, vm)
  else
    match lookupEvt vm.ioevents addr with
    | some existing_evt =>
      if evt ≠ existing_evt then (Except.error ENOENT, vm)
      else (Except.ok (), { vm with ioevents := eraseEvt vm.ioevents addr })
    | none => (Except.error ENOENT, vm)

/-- Vm::handle_io_events. Returns the result together with the list of
(event, value) signals emitted. Event::write of the base crate is not under src/
and is modelled from the spec (section 4.3: dispatch signals the bound event
exactly once per call) as an infallible signal of value 1. The data payload is
ignored by the source (binder `_data`). -/
def handle_io_events (vm : HaxmVm) (addr : IoEventAddress) (_data : List Nat) :
    Except Nat Unit × List (Nat × Nat) :=
  match lookupEvt vm.ioevents addr with
  | some evt => (Except.ok (), [(evt, 1)])
  | none => (Except.ok (), [])

/-- The in-process state of a freshly constructed HaxmVm (HaxmVm::new): empty slot
table, empty gap heap, empty io-event registry, given static guest memory. -/
def initVm (staticMem : List (Nat × Nat)) : HaxmVm :=
  { guest_mem := staticMem, mem_regions := [], mem_slot_gaps := [], ioevents := [] }

/-- Keys of the slot table. -/
def keysOf (l : List (Nat × GuestAddress × MappedRegion)) : List Nat :=
  l.map Prod.fst

/-- States reachable from a freshly constructed vm by any sequence of
add_memory_region / remove_memory_region calls (with arbitrary driver outcomes),
together with the list of live slots: slots handed out by a successful add and
not yet taken back by a successful remove. -/
inductive ReachLive (sm : List (Nat × Nat)) : HaxmVm → List Nat → Prop where
  | init : ReachLive sm (initVm sm) []
  | add_ok (vm : HaxmVm) (L : List Nat) (ga : GuestAddress) (mem : MappedRegion)
      (ro : Bool) (dres : Except Nat Unit) (s : Nat) (vm2 : HaxmVm) :
      ReachLive sm vm L →
      add_memory_region vm ga mem ro dres = (Except.ok s, vm2) →
      ReachLive sm vm2 (s :: L)
  | add_err (vm : HaxmVm) (L : List Nat) (ga : GuestAddress) (mem : MappedRegion)
      (ro : Bool) (dres : Except Nat Unit) (e : Nat) (vm2 : HaxmVm) :
      ReachLive sm vm L →
      add_memory_region vm ga mem ro dres = (Except.error e, vm2) →
      ReachLive sm vm2 L
  | remove_ok (vm : HaxmVm) (L : List Nat) (slot : Nat) (dres : Except Nat Unit)
      (m : MappedRegion) (vm2 : HaxmVm) :
      ReachLive sm vm L →
      remove_memory_region vm slot dres = (Except.ok m, vm2) →
      ReachLive sm vm2 (L.erase slot)
  | remove_err (vm : HaxmVm) (L : List Nat) (slot : Nat) (dres : Except Nat Unit)
      (e : Nat) (vm2 : HaxmVm) :
      ReachLive sm vm L →
      remove_memory_region vm slot dres = (Except.error e, vm2) →
      ReachLive sm vm2 L

/-! Basic lemmas about the association-list and heap operations. -/

theorem keysOf_nil : keysOf [] = [] := rfl

theorem keysOf_cons (e : Nat × GuestAddress × MappedRegion)
    (l : List (Nat × GuestAddress × MappedRegion)) :
    keysOf (e :: l) = e.1 :: keysOf l := rfl

theorem length_keysOf (l : List (Nat × GuestAddress × MappedRegion)) :
    (keysOf l).length = l.length := List.length_map l Prod.fst

theorem lookupSlot_insertSorted_self (l : List (Nat × GuestAddress × MappedRegion))
    (s : Nat) (ga : GuestAddress) (m : MappedRegion) :
    lookupSlot (insertSorted l s ga m) s = some (ga, m) := by
  induction l with
  | nil => simp [insertSorted, lookupSlot]
  | cons e rest ih =>
    by_cases h1 : s < e.1
    · simp [insertSorted, h1, lookupSlot]
    · by_cases h2 : s = e.1
      · simp [insertSorted, h1, h2, lookupSlot]
      · simp [insertSorted, h1, h2, lookupSlot, ih]

theorem mem_keysOf_insertSorted {l : List (Nat × GuestAddress × MappedRegion)}
    {s t : Nat} {ga : GuestAddress} {m : MappedRegion} :
    t ∈ keysOf (insertSorted l s ga m) ↔ t = s ∨ t ∈ keysOf l := by
  induction l with
  | nil => simp [insertSorted, keysOf]
  | cons e rest ih =>
    by_cases h1 : s < e.1
    · simp [insertSorted, h1, keysOf_cons]
    · by_cases h2 : s = e.1
      · subst h2
        simp [insertSorted, h1, keysOf_cons]
      · simp [insertSorted, h1, h2, keysOf_cons, ih]
        tauto

theorem length_insertSorted {l : List (Nat × GuestAddress × MappedRegion)}
    {s : Nat} (ga : GuestAddress) (m : MappedRegion) (h : s ∉ keysOf l) :
    (insertSorted l s ga m).length = l.length + 1 := by
  induction l with
  | nil => simp [insertSorted]
  | cons e rest ih =>
    rw [keysOf_cons, List.mem_cons] at h
    push_neg at h
    by_cases h1 : s < e.1
    · simp [insertSorted, h1]
    · simp [insertSorted, h1, h.1, ih h.2]

theorem mem_insertSorted {l : List (Nat × GuestAddress × MappedRegion)}
    {s : Nat} {ga : GuestAddress} {m : MappedRegion}
    {e2 : Nat × GuestAddress × MappedRegion} (h : e2 ∈ insertSorted l s ga m) :
    e2 = (s, ga, m) ∨ e2 ∈ l := by
  induction l with
  | nil => simpa [insertSorted] using h
  | cons e rest ih =>
    by_cases h1 : s < e.1
    · simp only [insertSorted, if_pos h1, List.mem_cons] at h ⊢
      tauto
    · by_cases h2 : s = e.1
      · simp only [insertSorted, if_neg h1, if_pos h2, List.mem_cons] at h ⊢
        tauto
      · simp only [insertSorted, if_neg h1, if_neg h2, List.mem_cons] at h ⊢
        rcases h with h | h
        · tauto
        · rcases ih h with h3 | h3
          · exact Or.inl h3
          · tauto

theorem pairwise_keysOf_insertSorted {l : List (Nat × GuestAddress × MappedRegion)}
    {s : Nat} (ga : GuestAddress) (m : MappedRegion)
    (h : List.Pairwise (· < ·) (keysOf l)) :
    List.Pairwise (· < ·) (keysOf (insertSorted l s ga m)) := by
  induction l with
  | nil => simp [insertSorted, keysOf]
  | cons e rest ih =>
    rw [keysOf_cons, List.pairwise_cons] at h
    by_cases h1 : s < e.1
    · rw [insertSorted]
      simp only [h1, if_true, keysOf_cons, List.pairwise_cons]
      refine ⟨?_, ?_, h.2⟩
      · intro t ht
        rcases List.mem_cons.mp ht with h3 | h3
        · omega
        · have := h.1 t h3
          omega
      · exact h.1
    · by_cases h2 : s = e.1
      · rw [insertSorted, if_neg h1, if_pos h2, keysOf_cons, List.pairwise_cons]
        refine ⟨?_, h.2⟩
        intro t ht
        have := h.1 t ht
        omega
      · rw [insertSorted]
        simp only [h1, h2, if_false, keysOf_cons, List.pairwise_cons]
        refine ⟨?_, ih h.2⟩
        intro t ht
        rcases mem_keysOf_insertSorted.mp ht with h3 | h3
        · omega
        · exact h.1 t h3

theorem lookupSlot_eq_none {l : List (Nat × GuestAddress × MappedRegion)} {s : Nat} :
    lookupSlot l s = none ↔ s ∉ keysOf l := by
  induction l with
  | nil => simp [lookupSlot, keysOf]
  | cons e rest ih =>
    by_cases h : s = e.1
    · simp [lookupSlot, h, keysOf_cons]
    · simp [lookupSlot, h, keysOf_cons, ih]

theorem lookupSlot_isSome_of_mem {l : List (Nat × GuestAddress × MappedRegion)} {s : Nat}
    (h : s ∈ keysOf l) : ∃ v, lookupSlot l s = some v := by
  cases hl : lookupSlot l s with
  | none => exact absurd (lookupSlot_eq_none.mp hl) (by simp [h])
  | some v => exact ⟨v, rfl⟩

theorem eraseSlot_sublist (l : List (Nat × GuestAddress × MappedRegion)) (s : Nat) :
    (eraseSlot l s).Sublist l := by
  induction l with
  | nil => simp [eraseSlot]
  | cons e rest ih =>
    by_cases h : s = e.1
    · simp [eraseSlot, h]
    · rw [eraseSlot, if_neg h]
      exact List.Sublist.cons₂ e ih

theorem pairwise_keysOf_eraseSlot {l : List (Nat × GuestAddress × MappedRegion)} {s : Nat}
    (h : List.Pairwise (· < ·) (keysOf l)) :
    List.Pairwise (· < ·) (keysOf (eraseSlot l s)) :=
  h.sublist (List.Sublist.map Prod.fst (eraseSlot_sublist l s))

theorem mem_keysOf_eraseSlot {l : List (Nat × GuestAddress × MappedRegion)} {s t : Nat}
    (hnd : (keysOf l).Nodup) :
    t ∈ keysOf (eraseSlot l s) ↔ t ∈ keysOf l ∧ t ≠ s := by
  induction l with
  | nil => simp [eraseSlot, keysOf]
  | cons e rest ih =>
    rw [keysOf_cons, List.nodup_cons] at hnd
    by_cases h : s = e.1
    · subst h
      rw [eraseSlot, if_pos rfl, keysOf_cons]
      constructor
      · intro ht
        refine ⟨List.mem_cons_of_mem _ ht, ?_⟩
        intro hts
        subst hts
        exact hnd.1 ht
      · intro ht
        rcases List.mem_cons.mp ht.1 with h3 | h3
        · exact absurd h3 ht.2
        · exact h3
    · rw [eraseSlot, if_neg h]
      simp only [keysOf_cons, List.mem_cons, ih hnd.2]
      constructor
      · rintro (h3 | ⟨h3, h4⟩)
        · exact ⟨Or.inl h3, by omega⟩
        · exact ⟨Or.inr h3, h4⟩
      · rintro ⟨h3 | h3, h4⟩
        · exact Or.inl h3
        · exact Or.inr ⟨h3, h4⟩

theorem length_eraseSlot {l : List (Nat × GuestAddress × MappedRegion)} {s : Nat}
    (h : s ∈ keysOf l) : (eraseSlot l s).length + 1 = l.length := by
  induction l with
  | nil => simp [keysOf] at h
  | cons e rest ih =>
    by_cases h1 : s = e.1
    · simp [eraseSlot, h1]
    · rw [keysOf_cons, List.mem_cons] at h
      rcases h with h | h

      · exact absurd h h1
      · simp [eraseSlot, h1, ih h]

theorem mem_eraseSlot {l : List (Nat × GuestAddress × MappedRegion)} {s : Nat}
    {e2 : Nat × GuestAddress × MappedRegion} (h : e2 ∈ eraseSlot l s) : e2 ∈ l :=
  (eraseSlot_sublist l s).mem h

theorem mem_heapPush {l : List Nat} {s t : Nat} :
    t ∈ heapPush l s ↔ t = s ∨ t ∈ l := by
  induction l with
  | nil => simp [heapPush]
  | cons g rest ih =>
    by_cases h : s ≤ g
    · simp [heapPush, h]
    · simp [heapPush, h, ih]
      tauto

theorem length_heapPush (l : List Nat) (s : Nat) :
    (heapPush l s).length = l.length + 1 := by
  induction l with
  | nil => simp [heapPush]
  | cons g rest ih =>
    by_cases h : s ≤ g
    · simp [heapPush, h]
    · simp [heapPush, h, ih]

theorem pairwise_heapPush {l : List Nat} {s : Nat}
    (hs : List.Pairwise (· < ·) l) (hns : s ∉ l) :
    List.Pairwise (· < ·) (heapPush l s) := by
  induction l with
  | nil => simp [heapPush]
  | cons g rest ih =>
    rw [List.pairwise_cons] at hs
    rw [List.mem_cons] at hns
    push_neg at hns
    by_cases h : s ≤ g
    · rw [heapPush, if_pos h]
      rw [List.pairwise_cons]
      constructor
      · intro t ht
        rcases List.mem_cons.mp ht with h3 | h3
        · subst h3
          omega
        · have := hs.1 t h3
          omega
      · exact List.pairwise_cons.mpr hs
    · rw [heapPush, if_neg h]
      rw [List.pairwise_cons]
      refine ⟨?_, ih hs.2 hns.2⟩
      intro t ht
      rcases mem_heapPush.mp ht with h3 | h3
      · omega
      · exact hs.1 t h3

theorem heapPush_of_le {l : List Nat} {s : Nat} (h : ∀ x ∈ l, s ≤ x) :
    heapPush l s = s :: l := by
  cases l with
  | nil => rfl
  | cons g rest => rw [heapPush, if_pos (h g (List.mem_cons_self g rest))]

theorem sorted_head_le {g : Nat} {rest : List Nat}
    (h : List.Pairwise (· < ·) (g :: rest)) : ∀ x ∈ g :: rest, g ≤ x := by
  rw [List.pairwise_cons] at h
  intro x hx
  rcases List.mem_cons.mp hx with h3 | h3
  · omega
  · exact Nat.le_of_lt (h.1 x h3)

theorem insertSorted_append {l : List (Nat × GuestAddress × MappedRegion)} {s : Nat}
    (ga : GuestAddress) (m : MappedRegion) (h : ∀ t ∈ keysOf l, t < s) :
    insertSorted l s ga m = l ++ [(s, ga, m)] := by
  induction l with
  | nil => rfl
  | cons e rest ih =>
    have he : e.1 < s := h e.1 (by simp [keysOf_cons])
    rw [insertSorted, if_neg (by omega), if_neg (by omega), ih]
    · rfl
    · intro t ht
      exact h t (by simp [keysOf_cons, ht])

/-! Case equations for add_memory_region and remove_memory_region. -/

theorem add_eq_overflow (vm : HaxmVm) (ga : GuestAddress) (mem : MappedRegion) (ro : Bool)
    (dres : Except Nat Unit) (h : U64_SIZE ≤ ga.offset + mem.size) :
    add_memory_region vm ga mem ro dres = (Except.error EOVERFLOW, vm) := by
  simp [add_memory_region, checked_add, Nat.not_lt.mpr h]

theorem add_eq_nospace (vm : HaxmVm) (ga : GuestAddress) (mem : MappedRegion) (ro : Bool)
    (dres : Except Nat Unit) (h1 : ga.offset + mem.size < U64_SIZE)
    (h2 : range_overlap vm.guest_mem ga.offset (ga.offset + mem.size) = true) :
    add_memory_region vm ga mem ro dres = (Except.error ENOSPC, vm) := by
  simp [add_memory_region, checked_add, h1, h2]

theorem add_eq_pop_err (vm : HaxmVm) (ga : GuestAddress) (mem : MappedRegion) (ro : Bool)
    (e gap : Nat) (rest : List Nat) (h1 : ga.offset + mem.size < U64_SIZE)
    (h2 : range_overlap vm.guest_mem ga.offset (ga.offset + mem.size) = false)
    (h3 : vm.mem_slot_gaps = gap :: rest) :
    add_memory_region vm ga mem ro (Except.error e) =
      (Except.error e, { vm with mem_slot_gaps := heapPush rest gap }) := by
  simp [add_memory_region, checked_add, h1, h2, h3]

theorem add_eq_pop_ok (vm : HaxmVm) (ga : GuestAddress) (mem : MappedRegion) (ro : Bool)
    (gap : Nat) (rest : List Nat) (h1 : ga.offset + mem.size < U64_SIZE)
    (h2 : range_overlap vm.guest_mem ga.offset (ga.offset + mem.size) = false)
    (h3 : vm.mem_slot_gaps = gap :: rest) :
    add_memory_region vm ga mem ro (Except.ok ()) =
      (Except.ok gap,
        { vm with
          mem_regions := insertSorted vm.mem_regions gap ga mem
          mem_slot_gaps := rest }) := by
  simp [add_memory_region, checked_add, h1, h2, h3]

theorem add_eq_mint_err (vm : HaxmVm) (ga : GuestAddress) (mem : MappedRegion) (ro : Bool)
    (e : Nat) (h1 : ga.offset + mem.size < U64_SIZE)
    (h2 : range_overlap vm.guest_mem ga.offset (ga.offset + mem.size) = false)
    (h3 : vm.mem_slot_gaps = []) :
    add_memory_region vm ga mem ro (Except.error e) =
      (Except.error e,
        { vm with
          mem_slot_gaps := [(vm.mem_regions.length + vm.guest_mem.length) % U32_SIZE] }) := by
  simp [add_memory_region, checked_add, h1, h2, h3, heapPush]

theorem add_eq_mint_ok (vm : HaxmVm) (ga : GuestAddress) (mem : MappedRegion) (ro : Bool)
    (h1 : ga.offset + mem.size < U64_SIZE)
    (h2 : range_overlap vm.guest_mem ga.offset (ga.offset + mem.size) = false)
    (h3 : vm.mem_slot_gaps = []) :
    add_memory_region vm ga mem ro (Except.ok ()) =
      (Except.ok ((vm.mem_regions.length + vm.guest_mem.length) % U32_SIZE),
        { vm with
          mem_regions := insertSorted vm.mem_regions
            ((vm.mem_regions.length + vm.guest_mem.length) % U32_SIZE) ga mem }) := by
  simp [add_memory_region, checked_add, h1, h2, h3]

theorem remove_eq_absent (vm : HaxmVm) (slot : Nat) (dres : Except Nat Unit)
    (h : lookupSlot vm.mem_regions slot = none) :
    remove_memory_region vm slot dres = (Except.error ENOENT, vm) := by
  simp [remove_memory_region, h]

theorem remove_eq_err (vm : HaxmVm) (slot e : Nat) (gm : GuestAddress × MappedRegion)
    (h : lookupSlot vm.mem_regions slot = some gm) :
    remove_memory_region vm slot (Except.error e) = (Except.error e, vm) := by
  simp [remove_memory_region, h]

theorem remove_eq_ok (vm : HaxmVm) (slot : Nat) (gm : GuestAddress × MappedRegion)
    (h : lookupSlot vm.mem_regions slot = some gm) :
    remove_memory_region vm slot (Except.ok ()) =
      (Except.ok gm.2,
        { vm with
          mem_slot_gaps := heapPush vm.mem_slot_gaps slot
          mem_regions := eraseSlot vm.mem_regions slot }) := by
  simp [remove_memory_region, h]

/-! The set of slot numbers either live (a key of the slot table) or reclaimed
(in the gap heap). Its cardinality never decreases across operations, which
lets the reachability invariant be cut off once the u32 slot space is spent. -/

def slotSet (vm : HaxmVm) : Finset Nat :=
  (keysOf vm.mem_regions ++ vm.mem_slot_gaps).toFinset

theorem mem_slotSet {vm : HaxmVm} {x : Nat} :
    x ∈ slotSet vm ↔ x ∈ keysOf vm.mem_regions ∨ x ∈ vm.mem_slot_gaps := by
  simp [slotSet]

theorem mem_keysOf_of_eraseSlot (slot : Nat) {l : List (Nat × GuestAddress × MappedRegion)}
    {x : Nat} (h : x ∈ keysOf l) : x = slot ∨ x ∈ keysOf (eraseSlot l slot) := by
  induction l with
  | nil => simp [keysOf] at h
  | cons e rest ih =>
    rw [keysOf_cons, List.mem_cons] at h
    by_cases h1 : slot = e.1
    · rw [eraseSlot, if_pos h1]
      rcases h with h | h
      · exact Or.inl (by omega)
      · exact Or.inr h
    · rw [eraseSlot, if_neg h1, keysOf_cons]
      rcases h with h | h
      · exact Or.inr (by simp [h])
      · rcases ih h with h3 | h3
        · exact Or.inl h3
        · exact Or.inr (List.mem_cons_of_mem _ h3)

theorem slotSet_add_subset (vm : HaxmVm) (ga : GuestAddress) (mem : MappedRegion)
    (ro : Bool) (dres : Except Nat Unit) (res : Except Nat Nat) (vm2 : HaxmVm)
    (h : add_memory_region vm ga mem ro dres = (res, vm2)) : slotSet vm ⊆ slotSet vm2 := by
  intro x hx
  rw [mem_slotSet] at hx
  rw [mem_slotSet]
  by_cases h1 : ga.offset + mem.size < U64_SIZE
  · by_cases h2 : range_overlap vm.guest_mem ga.offset (ga.offset + mem.size) = true
    · rw [add_eq_nospace vm ga mem ro dres h1 h2] at h
      rcases h with ⟨rfl, rfl⟩
      exact hx
    · rw [Bool.not_eq_true] at h2
      cases hg : vm.mem_slot_gaps with
      | cons gap rest =>
        cases dres with
        | error e =>
          rw [add_eq_pop_err vm ga mem ro e gap rest h1 h2 hg] at h
          rcases h with ⟨rfl, rfl⟩
          rcases hx with hx | hx
          · exact Or.inl hx
          · right
            rw [hg, List.mem_cons] at hx
            simp only [mem_heapPush]
            tauto
        | ok u =>
          cases u
          rw [add_eq_pop_ok vm ga mem ro gap rest h1 h2 hg] at h
          rcases h with ⟨rfl, rfl⟩
          rcases hx with hx | hx
          · exact Or.inl (mem_keysOf_insertSorted.mpr (Or.inr hx))
          · rw [hg, List.mem_cons] at hx
            rcases hx with hx | hx
            · exact Or.inl (mem_keysOf_insertSorted.mpr (Or.inl hx))
            · exact Or.inr hx
      | nil =>
        cases dres with
        | error e =>
          rw [add_eq_mint_err vm ga mem ro e h1 h2 hg] at h
          rcases h with ⟨rfl, rfl⟩
          rcases hx with hx | hx
          · exact Or.inl hx
          · rw [hg] at hx
            simp at hx
        | ok u =>
          cases u
          rw [add_eq_mint_ok vm ga mem ro h1 h2 hg] at h
          rcases h with ⟨rfl, rfl⟩
          rcases hx with hx | hx
          · exact Or.inl (mem_keysOf_insertSorted.mpr (Or.inr hx))
          · rw [hg] at hx
            simp at hx
  · rw [add_eq_overflow vm ga mem ro dres (by omega)] at h
    rcases h with ⟨rfl, rfl⟩
    exact hx

theorem slotSet_remove_subset (vm : HaxmVm) (slot : Nat) (dres : Except Nat Unit)
    (res : Except Nat MappedRegion) (vm2 : HaxmVm)
    (h : remove_memory_region vm slot dres = (res, vm2)) : slotSet vm ⊆ slotSet vm2 := by
  intro x hx
  rw [mem_slotSet] at hx
  rw [mem_slotSet]
  cases hls : lookupSlot vm.mem_regions slot with
  | none =>
    rw [remove_eq_absent vm slot dres hls] at h
    rcases h with ⟨rfl, rfl⟩
    exact hx
  | some gm =>
    cases dres with
    | error e =>
      rw [remove_eq_err vm slot e gm hls] at h
      rcases h with ⟨rfl, rfl⟩
      exact hx
    | ok u =>
      cases u
      rw [remove_eq_ok vm slot gm hls] at h
      rcases h with ⟨rfl, rfl⟩
      rcases hx with hx | hx
      · rcases mem_keysOf_of_eraseSlot slot hx with h3 | h3
        · subst h3
          exact Or.inr (mem_heapPush.mpr (Or.inl rfl))
        · exact Or.inl h3
      · exact Or.inr (mem_heapPush.mpr (Or.inr hx))

/-! The reachability invariant relating the slot table, the gap heap and the
live slot list, valid while the u32 slot budget is not exhausted. -/

structure Inv (sm : List (Nat × Nat)) (vm : HaxmVm) (L : List Nat) : Prop where
  guest_eq : vm.guest_mem = sm
  ksorted : List.Pairwise (· < ·) (keysOf vm.mem_regions)
  gsorted : List.Pairwise (· < ·) vm.mem_slot_gaps
  disj : ∀ s ∈ keysOf vm.mem_regions, s ∉ vm.mem_slot_gaps
  lnodup : L.Nodup
  live_iff : ∀ s, s ∈ L ↔ s ∈ keysOf vm.mem_regions
  range_iff : ∀ s, (s ∈ keysOf vm.mem_regions ∨ s ∈ vm.mem_slot_gaps) ↔
      (sm.length ≤ s ∧ s < sm.length + vm.mem_regions.length + vm.mem_slot_gaps.length)
  static_ok : ∀ e ∈ vm.mem_regions,
      range_overlap sm e.2.1.offset (e.2.1.offset + e.2.2.size) = false

theorem inv_init (sm : List (Nat × Nat)) : Inv sm (initVm sm) [] where
  guest_eq := rfl
  ksorted := by simp [initVm, keysOf]
  gsorted := by simp [initVm]
  disj := by simp [initVm, keysOf]
  lnodup := by simp
  live_iff := by simp [initVm, keysOf]
  range_iff := by intro s; simp [initVm, keysOf]
  static_ok := by simp [initVm]

theorem card_slotSet_of_inv {sm : List (Nat × Nat)} {vm : HaxmVm} {L : List Nat}
    (hInv : Inv sm vm L) :
    (slotSet vm).card = vm.mem_regions.length + vm.mem_slot_gaps.length := by
  have hk : (keysOf vm.mem_regions).Nodup := hInv.ksorted.imp fun h => Nat.ne_of_lt h
  have hg : vm.mem_slot_gaps.Nodup := hInv.gsorted.imp fun h => Nat.ne_of_lt h
  have hd : (keysOf vm.mem_regions).Disjoint vm.mem_slot_gaps := fun x hx1 hx2 =>
    hInv.disj x hx1 hx2
  rw [slotSet, List.toFinset_card_of_nodup (hk.append hg hd), List.length_append, length_keysOf]

theorem inv_add_pop_ok {sm : List (Nat × Nat)} {vm : HaxmVm} {L : List Nat}
    (hInv : Inv sm vm L) (ga : GuestAddress) (mem : MappedRegion) {gap : Nat}
    {rest : List Nat} (hg : vm.mem_slot_gaps = gap :: rest)
    (hov : range_overlap sm ga.offset (ga.offset + mem.size) = false) :
    Inv sm
      { vm with
        mem_regions := insertSorted vm.mem_regions gap ga mem
        mem_slot_gaps := rest } (gap :: L) := by
  have hgap_mem : gap ∈ vm.mem_slot_gaps := by rw [hg]; exact List.mem_cons_self _ _
  have hgap_not_key : gap ∉ keysOf vm.mem_regions := fun hk => hInv.disj gap hk hgap_mem
  have hgsor := hInv.gsorted
  rw [hg, List.pairwise_cons] at hgsor
  have hgap_not_rest : gap ∉ rest := fun hc => absurd (hgsor.1 gap hc) (lt_irrefl gap)
  have hlen_g : vm.mem_slot_gaps.length = rest.length + 1 := by rw [hg]; rfl
  have hlen_ins : (insertSorted vm.mem_regions gap ga mem).length =
      vm.mem_regions.length + 1 := length_insertSorted ga mem hgap_not_key
  refine ⟨hInv.guest_eq, pairwise_keysOf_insertSorted ga mem hInv.ksorted, hgsor.2,
    ?_, ?_, ?_, ?_, ?_⟩
  · intro s hs hsr
    rcases mem_keysOf_insertSorted.mp hs with rfl | hs2
    · exact hgap_not_rest hsr
    · exact hInv.disj s hs2 (by rw [hg]; exact List.mem_cons_of_mem _ hsr)
  · rw [List.nodup_cons]
    exact ⟨fun hc => hgap_not_key ((hInv.live_iff gap).mp hc), hInv.lnodup⟩
  · intro s
    simp only [List.mem_cons, hInv.live_iff s, mem_keysOf_insertSorted]
  · intro s
    have hr := hInv.range_iff s
    simp only [mem_keysOf_insertSorted, hlen_ins]
    constructor
    · rintro ((rfl | hk) | hrest)
      · have := hr.mp (Or.inr hgap_mem)
        omega
      · have := hr.mp (Or.inl hk)
        omega
      · have := hr.mp (Or.inr (by rw [hg]; exact List.mem_cons_of_mem _ hrest))
        omega
    · intro hb
      have h5 : s ∈ keysOf vm.mem_regions ∨ s ∈ vm.mem_slot_gaps := hr.mpr (by omega)
      rcases h5 with hk | hgm
      · exact Or.inl (Or.inr hk)
      · rw [hg, List.mem_cons] at hgm
        rcases hgm with rfl | hrest
        · exact Or.inl (Or.inl rfl)
        · exact Or.inr hrest
  · intro e he
    rcases mem_insertSorted he with rfl | he2
    · simpa using hov
    · exact hInv.static_ok e he2

theorem inv_add_mint_ok {sm : List (Nat × Nat)} {vm : HaxmVm} {L : List Nat}
    (hInv : Inv sm vm L) (ga : GuestAddress) (mem : MappedRegion)
    (hg : vm.mem_slot_gaps = [])
    (hb : sm.length + vm.mem_regions.length < U32_SIZE)
    (hov : range_overlap sm ga.offset (ga.offset + mem.size) = false) :
    Inv sm
      { vm with
        mem_regions := insertSorted vm.mem_regions
          ((vm.mem_regions.length + vm.guest_mem.length) % U32_SIZE) ga mem }
      (((vm.mem_regions.length + vm.guest_mem.length) % U32_SIZE) :: L) := by
  have hsm : vm.guest_mem.length = sm.length := by rw [hInv.guest_eq]
  have hmod : (vm.mem_regions.length + vm.guest_mem.length) % U32_SIZE =
      vm.mem_regions.length + sm.length := by
    rw [hsm]
    exact Nat.mod_eq_of_lt (by omega)
  rw [hmod]
  have hfresh : vm.mem_regions.length + sm.length ∉ keysOf vm.mem_regions := by
    intro hk
    have := (hInv.range_iff _).mp (Or.inl hk)
    rw [hg] at this
    simp at this
    omega
  have hlen_ins : (insertSorted vm.mem_regions (vm.mem_regions.length + sm.length) ga
      mem).length = vm.mem_regions.length + 1 := length_insertSorted ga mem hfresh
  refine ⟨hInv.guest_eq, pairwise_keysOf_insertSorted ga mem hInv.ksorted, hInv.gsorted,
    ?_, ?_, ?_, ?_, ?_⟩
  · intro s hs
    rw [hg]
    simp
  · rw [List.nodup_cons]
    exact ⟨fun hc => hfresh ((hInv.live_iff _).mp hc), hInv.lnodup⟩
  · intro s
    simp only [List.mem_cons, hInv.live_iff s, mem_keysOf_insertSorted]
  · intro s
    have hr := hInv.range_iff s
    rw [hg] at hr
    simp only [List.not_mem_nil, or_false, List.length_nil] at hr
    simp only [mem_keysOf_insertSorted, hlen_ins, hg, List.not_mem_nil, or_false,
      List.length_nil]
    constructor
    · rintro (rfl | hk)
      · omega
      · have := hr.mp hk
        omega
    · intro hb2
      by_cases hcase : s = vm.mem_regions.length + sm.length
      · exact Or.inl hcase
      · exact Or.inr (hr.mpr (by omega))
  · intro e he
    rcases mem_insertSorted he with rfl | he2
    · simpa using hov
    · exact hInv.static_ok e he2

theorem add_pop_err_state {vm : HaxmVm} {gap : Nat} {rest : List Nat}
    (hg : vm.mem_slot_gaps = gap :: rest)
    (hs : List.Pairwise (· ≤ ·) vm.mem_slot_gaps) :
    ({ vm with mem_slot_gaps := heapPush rest gap } : HaxmVm) = vm := by
  have hgsor := hs
  rw [hg, List.pairwise_cons] at hgsor
  have h1 : heapPush rest gap = gap :: rest :=
    heapPush_of_le fun x hx => hgsor.1 x hx
  rw [h1, ← hg]

theorem inv_add_mint_err {sm : List (Nat × Nat)} {vm : HaxmVm} {L : List Nat}
    (hInv : Inv sm vm L) (hg : vm.mem_slot_gaps = [])
    (hb : sm.length + vm.mem_regions.length < U32_SIZE) :
    Inv sm
      { vm with
        mem_slot_gaps := [(vm.mem_regions.length + vm.guest_mem.length) % U32_SIZE] }
      L := by
  have hsm : vm.guest_mem.length = sm.length := by rw [hInv.guest_eq]
  have hmod : (vm.mem_regions.length + vm.guest_mem.length) % U32_SIZE =
      vm.mem_regions.length + sm.length := by
    rw [hsm]
    exact Nat.mod_eq_of_lt (by omega)
  rw [hmod]
  have hfresh : vm.mem_regions.length + sm.length ∉ keysOf vm.mem_regions := by
    intro hk
    have := (hInv.range_iff _).mp (Or.inl hk)
    rw [hg] at this
    simp at this
    omega
  refine ⟨hInv.guest_eq, hInv.ksorted, ?_, ?_, hInv.lnodup, hInv.live_iff, ?_,
    hInv.static_ok⟩
  · simp
  · intro s hs
    simp only [List.mem_singleton]
    intro hc
    rw [hc] at hs
    exact hfresh hs
  · intro s
    have hr := hInv.range_iff s
    rw [hg] at hr
    simp only [List.not_mem_nil, or_false, List.length_nil] at hr
    simp only [List.mem_singleton, List.length_singleton]
    constructor
    · rintro (hk | rfl)
      · have := hr.mp hk
        omega
      · omega
    · intro hb2
      by_cases hcase : s = vm.mem_regions.length + sm.length
      · exact Or.inr hcase
      · exact Or.inl (hr.mpr (by omega))

theorem inv_remove_ok {sm : List (Nat × Nat)} {vm : HaxmVm} {L : List Nat}
    (hInv : Inv sm vm L) {slot : Nat} {gm : GuestAddress × MappedRegion}
    (hls : lookupSlot vm.mem_regions slot = some gm) :
    Inv sm
      { vm with
        mem_slot_gaps := heapPush vm.mem_slot_gaps slot
        mem_regions := eraseSlot vm.mem_regions slot } (L.erase slot) := by
  have hknodup : (keysOf vm.mem_regions).Nodup := hInv.ksorted.imp fun h => Nat.ne_of_lt h
  have hslot_key : slot ∈ keysOf vm.mem_regions := by
    by_contra hc
    rw [← lookupSlot_eq_none] at hc
    rw [hc] at hls
    exact Option.noConfusion hls
  have hslot_not_gap : slot ∉ vm.mem_slot_gaps := hInv.disj slot hslot_key
  have hlen_e : (eraseSlot vm.mem_regions slot).length + 1 = vm.mem_regions.length :=
    length_eraseSlot hslot_key
  refine ⟨hInv.guest_eq, pairwise_keysOf_eraseSlot hInv.ksorted,
    pairwise_heapPush hInv.gsorted hslot_not_gap, ?_, hInv.lnodup.erase slot, ?_, ?_, ?_⟩
  · intro s hs hsh
    rw [mem_keysOf_eraseSlot hknodup] at hs
    rcases mem_heapPush.mp hsh with rfl | hsg
    · exact hs.2 rfl
    · exact hInv.disj s hs.1 hsg
  · intro s
    rw [hInv.lnodup.mem_erase_iff, mem_keysOf_eraseSlot hknodup, hInv.live_iff s]
    tauto
  · intro s
    have hr := hInv.range_iff s
    simp only [mem_keysOf_eraseSlot hknodup, length_heapPush]
    constructor
    · rintro (⟨hk, hne⟩ | hh)
      · have := hr.mp (Or.inl hk)
        omega
      · rcases mem_heapPush.mp hh with rfl | hsg
        · have := hr.mp (Or.inl hslot_key)
          omega
        · have := hr.mp (Or.inr hsg)
          omega
    · intro hb
      have h5 : s ∈ keysOf vm.mem_regions ∨ s ∈ vm.mem_slot_gaps := hr.mpr (by omega)
      rcases h5 with hk | hgm
      · by_cases hcase : s = slot
        · exact Or.inr (mem_heapPush.mpr (Or.inl hcase))
        · exact Or.inl ⟨hk, hcase⟩
      · exact Or.inr (mem_heapPush.mpr (Or.inr hgm))
  · intro e he
    exact hInv.static_ok e (mem_eraseSlot he)

theorem reach_main {sm : List (Nat × Nat)} {vm : HaxmVm} {L : List Nat}
    (h : ReachLive sm vm L) :
    Inv sm vm L ∨ U32_SIZE ≤ sm.length + (slotSet vm).card := by
  induction h with
  | init => exact Or.inl (inv_init sm)
  | add_ok vm1 L1 ga mem ro dres s vm2 hr heq ih =>
    have hsub := slotSet_add_subset vm1 ga mem ro dres (Except.ok s) vm2 heq
    have hcard_le := Finset.card_le_card hsub
    rcases ih with hInv | hcard
    · by_cases h1 : ga.offset + mem.size < U64_SIZE
      · by_cases h2 : range_overlap vm1.guest_mem ga.offset (ga.offset + mem.size) = true
        · rw [add_eq_nospace vm1 ga mem ro dres h1 h2] at heq
          exact absurd heq (by simp)
        · rw [Bool.not_eq_true] at h2
          have h2s : range_overlap sm ga.offset (ga.offset + mem.size) = false := by
            rw [← hInv.guest_eq]
            exact h2
          cases hg : vm1.mem_slot_gaps with
          | cons gap rest =>
            cases dres with
            | error e =>
              rw [add_eq_pop_err vm1 ga mem ro e gap rest h1 h2 hg] at heq
              exact absurd heq (by simp)
            | ok u =>
              cases u
              rw [add_eq_pop_ok vm1 ga mem ro gap rest h1 h2 hg] at heq
              simp only [Prod.mk.injEq, Except.ok.injEq] at heq
              obtain ⟨rfl, rfl⟩ := heq
              exact Or.inl (inv_add_pop_ok hInv ga mem hg h2s)
          | nil =>
            cases dres with
            | error e =>
              rw [add_eq_mint_err vm1 ga mem ro e h1 h2 hg] at heq
              exact absurd heq (by simp)
            | ok u =>
              cases u
              rw [add_eq_mint_ok vm1 ga mem ro h1 h2 hg] at heq
              simp only [Prod.mk.injEq, Except.ok.injEq] at heq
              obtain ⟨rfl, rfl⟩ := heq
              by_cases hb : sm.length + vm1.mem_regions.length < U32_SIZE
              · exact Or.inl (inv_add_mint_ok hInv ga mem hg hb h2s)
              · right
                have hc1 := card_slotSet_of_inv hInv
                rw [hg] at hc1
                simp only [List.length_nil] at hc1
                omega
      · rw [add_eq_overflow vm1 ga mem ro dres (by omega)] at heq
        exact absurd heq (by simp)
    · right
      omega
  | add_err vm1 L1 ga mem ro dres e vm2 hr heq ih =>
    have hsub := slotSet_add_subset vm1 ga mem ro dres (Except.error e) vm2 heq
    have hcard_le := Finset.card_le_card hsub
    rcases ih with hInv | hcard
    · by_cases h1 : ga.offset + mem.size < U64_SIZE
      · by_cases h2 : range_overlap vm1.guest_mem ga.offset (ga.offset + mem.size) = true
        · rw [add_eq_nospace vm1 ga mem ro dres h1 h2] at heq
          simp only [Prod.mk.injEq, Except.error.injEq] at heq
          obtain ⟨rfl, rfl⟩ := heq
          exact Or.inl hInv
        · rw [Bool.not_eq_true] at h2
          cases hg : vm1.mem_slot_gaps with
          | cons gap rest =>
            cases dres with
            | error e2 =>
              rw [add_eq_pop_err vm1 ga mem ro e2 gap rest h1 h2 hg] at heq
              simp only [Prod.mk.injEq, Except.error.injEq] at heq
              obtain ⟨rfl, rfl⟩ := heq
              rw [add_pop_err_state hg (hInv.gsorted.imp fun h12 => Nat.le_of_lt h12)]
              exact Or.inl hInv
            | ok u =>
              cases u
              rw [add_eq_pop_ok vm1 ga mem ro gap rest h1 h2 hg] at heq
              exact absurd heq (by simp)
          | nil =>
            cases dres with
            | error e2 =>
              rw [add_eq_mint_err vm1 ga mem ro e2 h1 h2 hg] at heq
              simp only [Prod.mk.injEq, Except.error.injEq] at heq
              obtain ⟨rfl, rfl⟩ := heq
              by_cases hb : sm.length + vm1.mem_regions.length < U32_SIZE
              · exact Or.inl (inv_add_mint_err hInv hg hb)
              · right
                have hc1 := card_slotSet_of_inv hInv
                rw [hg] at hc1
                simp only [List.length_nil] at hc1
                omega
            | ok u =>
              cases u
              rw [add_eq_mint_ok vm1 ga mem ro h1 h2 hg] at heq
              exact absurd heq (by simp)
      · rw [add_eq_overflow vm1 ga mem ro dres (by omega)] at heq
        simp only [Prod.mk.injEq, Except.error.injEq] at heq
        obtain ⟨rfl, rfl⟩ := heq
        exact Or.inl hInv
    · right
      omega
  | remove_ok vm1 L1 slot dres m vm2 hr heq ih =>
    have hsub := slotSet_remove_subset vm1 slot dres (Except.ok m) vm2 heq
    have hcard_le := Finset.card_le_card hsub
    rcases ih with hInv | hcard
    · cases hls : lookupSlot vm1.mem_regions slot with
      | none =>
        rw [remove_eq_absent vm1 slot dres hls] at heq
        exact absurd heq (by simp)
      | some gm =>
        cases dres with
        | error e =>
          rw [remove_eq_err vm1 slot e gm hls] at heq
          exact absurd heq (by simp)
        | ok u =>
          cases u
          rw [remove_eq_ok vm1 slot gm hls] at heq
          simp only [Prod.mk.injEq, Except.ok.injEq] at heq
          obtain ⟨rfl, rfl⟩ := heq
          exact Or.inl (inv_remove_ok hInv hls)
    · right
      omega
  | remove_err vm1 L1 slot dres e vm2 hr heq ih =>
    have hsub := slotSet_remove_subset vm1 slot dres (Except.error e) vm2 heq
    have hcard_le := Finset.card_le_card hsub
    rcases ih with hInv | hcard
    · cases hls : lookupSlot vm1.mem_regions slot with
      | none =>
        rw [remove_eq_absent vm1 slot dres hls] at heq
        simp only [Prod.mk.injEq, Except.error.injEq] at heq
        obtain ⟨rfl, rfl⟩ := heq
        exact Or.inl hInv
      | some gm =>
        cases dres with
        | error e2 =>
          rw [remove_eq_err vm1 slot e2 gm hls] at heq
          simp only [Prod.mk.injEq, Except.error.injEq] at heq
          obtain ⟨rfl, rfl⟩ := heq
          exact Or.inl hInv
        | ok u =>
          cases u
          rw [remove_eq_ok vm1 slot gm hls] at heq
          exact absurd heq (by simp)
    · right
      omega

/-- While fewer than 2 ^ 32 slot numbers are in play (static regions plus live plus
reclaimed), every reachable state satisfies the invariant. -/
theorem reach_inv {sm : List (Nat × Nat)} {vm : HaxmVm} {L : List Nat}
    (h : ReachLive sm vm L)
    (hb : sm.length + vm.mem_regions.length + vm.mem_slot_gaps.length < U32_SIZE) :
    Inv sm vm L := by
  rcases reach_main h with hInv | hcard
  · exact hInv
  · exfalso
    have h1 : (slotSet vm).card ≤ (keysOf vm.mem_regions ++ vm.mem_slot_gaps).length :=
      List.toFinset_card_le _
    rw [List.length_append, length_keysOf] at h1
    omega

/-! Claim theorems. -/

/-- C2 (counterexample): the claim that a driver failure inside add_memory_region
leaves the in-process state exactly as before is false when the slot was freshly
minted rather than popped: on a fresh vm with an empty gap heap, a failing add
returns the driver error unchanged but leaves the gap heap holding the minted
slot 0, so the state differs from the initial state. -/
theorem C2_counterexample :
    (add_memory_region (initVm []) ⟨0⟩ ⟨0x10, 0⟩ false (Except.error 5)).1 =
      Except.error 5 ∧
    (add_memory_region (initVm []) ⟨0⟩ ⟨0x10, 0⟩ false (Except.error 5)).2 ≠
      initVm [] := by decide

/-- C2 (amended): when the driver map call inside add_memory_region fails (after the
overflow and overlap pre-checks pass), the driver error is propagated unchanged,
nothing is inserted into the slot table, and the candidate slot is pushed onto the
gap heap: if the slot was popped from a (sorted, non-empty) heap the whole state is
exactly as before the call, and if the heap was empty the only change is that the
heap now holds the freshly minted slot number. -/
theorem C2_driver_failure_rollback (vm : HaxmVm) (ga : GuestAddress) (mem : MappedRegion)
    (ro : Bool) (e : Nat)
    (h1 : ga.offset + mem.size < U64_SIZE)
    (h2 : range_overlap vm.guest_mem ga.offset (ga.offset + mem.size) = false) :
    (add_memory_region vm ga mem ro (Except.error e)).1 = Except.error e ∧
    (add_memory_region vm ga mem ro (Except.error e)).2.mem_regions = vm.mem_regions ∧
    (add_memory_region vm ga mem ro (Except.error e)).2.guest_mem = vm.guest_mem ∧
    (add_memory_region vm ga mem ro (Except.error e)).2.ioevents = vm.ioevents ∧
    (List.Pairwise (· ≤ ·) vm.mem_slot_gaps → vm.mem_slot_gaps ≠ [] →
      (add_memory_region vm ga mem ro (Except.error e)).2 = vm) ∧
    (vm.mem_slot_gaps = [] →
      (add_memory_region vm ga mem ro (Except.error e)).2.mem_slot_gaps =
        [(vm.mem_regions.length + vm.guest_mem.length) % U32_SIZE]) := by
  cases hg : vm.mem_slot_gaps with
  | nil =>
    rw [add_eq_mint_err vm ga mem ro e h1 h2 hg]
    refine ⟨rfl, rfl, rfl, rfl, ?_, fun _ => rfl⟩
    intro hsor hne
    exact absurd rfl hne
  | cons gap rest =>
    rw [add_eq_pop_err vm ga mem ro e gap rest h1 h2 hg]
    refine ⟨rfl, rfl, rfl, rfl, ?_, ?_⟩
    · intro hsor hne
      exact add_pop_err_state hg (by rw [hg]; exact hsor)
    · intro hnil
      exact absurd hnil (by simp)

/-- Concrete vm used by the C2 witness: one static region, one live slot, one gap. -/
def vmC2 : HaxmVm :=
  { guest_mem := [(0, 0x1000)]
    mem_regions := [(1, ⟨0x1000⟩, ⟨0x1000, 9⟩)]
    mem_slot_gaps := [3]
    ioevents := [] }

theorem C2_driver_failure_rollback_witness :
    (add_memory_region vmC2 ⟨0x2000⟩ ⟨0x1000, 5⟩ false (Except.error 7)).1 =
      Except.error 7 ∧
    (add_memory_region vmC2 ⟨0x2000⟩ ⟨0x1000, 5⟩ false (Except.error 7)).2 = vmC2 := by
  have h := C2_driver_failure_rollback vmC2 ⟨0x2000⟩ ⟨0x1000, 5⟩ false 7 (by decide)
    (by decide)
  exact ⟨h.1, h.2.2.2.2.1 (by decide) (by decide)⟩

/-- Concrete io-event registry used by the C3 theorems: event handle 5 bound at
port 0xf4. -/
def vmC3 : HaxmVm :=
  { guest_mem := [], mem_regions := [], mem_slot_gaps := []
    ioevents := [(IoEventAddress.Pio 0xf4, 5)] }

/-- C3 (counterexample): the claim that the mismatch case fails with a distinct
error Mismatch (not NotFound) is false: with event 5 bound at port 0xf4, an
unregister with the different event 6 returns errno ENOENT, exactly the same error
the unbound address 0xf5 produces. -/
theorem C3_counterexample :
    (unregister_ioevent vmC3 6 (IoEventAddress.Pio 0xf4) Datamatch.AnyLength).1 =
      Except.error ENOENT ∧
    (unregister_ioevent vmC3 6 (IoEventAddress.Pio 0xf5) Datamatch.AnyLength).1 =
      Except.error ENOENT := by decide

/-- C3 (amended): unregister_ioevent(evt, addr, AnyLength) fails when no event is
bound at addr, and also fails when an event is bound at addr that differs from the
supplied evt; in both failure cases the same errno ENOENT is returned (the source
does not use a distinct error code for the mismatch case) and the registry,
including the existing binding, is left completely unchanged. -/
theorem C3_unregister_failures (vm : HaxmVm) (evt : Nat) (addr : IoEventAddress) :
    (lookupEvt vm.ioevents addr = none →
      unregister_ioevent vm evt addr Datamatch.AnyLength = (Except.error ENOENT, vm)) ∧
    (∀ ex, lookupEvt vm.ioevents addr = some ex → evt ≠ ex →
      unregister_ioevent vm evt addr Datamatch.AnyLength = (Except.error ENOENT, vm)) := by
  constructor
  · intro h
    simp [unregister_ioevent, h]
  · intro ex h hne
    simp [unregister_ioevent, h, hne]

theorem C3_unregister_failures_witness :
    unregister_ioevent vmC3 6 (IoEventAddress.Pio 0xf4) Datamatch.AnyLength =
      (Except.error ENOENT, vmC3) :=
  (C3_unregister_failures vmC3 6 (IoEventAddress.Pio 0xf4)).2 5 (by decide) (by decide)

/-- C5: remove_memory_region fails with ENOENT when the slot is absent (without
touching the state); when the slot is present and the driver unmap fails it returns
that error with slot table and gap heap unchanged; when the driver unmap succeeds
it pushes the slot onto the gap heap and removes and returns the owned mapping. -/
theorem C5_remove_semantics (vm : HaxmVm) (slot : Nat) :
    (∀ dres, lookupSlot vm.mem_regions slot = none →
      remove_memory_region vm slot dres = (Except.error ENOENT, vm)) ∧
    (∀ gm e, lookupSlot vm.mem_regions slot = some gm →
      remove_memory_region vm slot (Except.error e) = (Except.error e, vm)) ∧
    (∀ gm, lookupSlot vm.mem_regions slot = some gm →
      remove_memory_region vm slot (Except.ok ()) =
        (Except.ok gm.2,
          { vm with
            mem_slot_gaps := heapPush vm.mem_slot_gaps slot
            mem_regions := eraseSlot vm.mem_regions slot })) :=
  ⟨fun dres h => remove_eq_absent vm slot dres h,
   fun gm e h => remove_eq_err vm slot e gm h,
   fun gm h => remove_eq_ok vm slot gm h⟩

/-- Concrete vm used by the C5 witness: one live slot 1. -/
def vmC5 : HaxmVm :=
  { guest_mem := [(0, 0x1000)]
    mem_regions := [(1, ⟨0x1000⟩, ⟨0x1000, 42⟩)]
    mem_slot_gaps := []
    ioevents := [] }

theorem C5_remove_semantics_witness :
    remove_memory_region vmC5 1 (Except.ok ()) =
      (Except.ok (⟨0x1000, 42⟩ : MappedRegion),
        { vmC5 with
          mem_slot_gaps := heapPush vmC5.mem_slot_gaps 1
          mem_regions := eraseSlot vmC5.mem_regions 1 }) :=
  (C5_remove_semantics vmC5 1).2.2 (⟨0x1000⟩, ⟨0x1000, 42⟩) (by decide)

/-- State after the first add of the C6 scenario (no static memory, so the first
minted slot is 0). -/
def vmC6a : HaxmVm :=
  (add_memory_region (initVm []) ⟨0x1000⟩ ⟨0x1000, 100⟩ false (Except.ok ())).2

/-- State after the second add of the C6 scenario. -/
def vmC6b : HaxmVm :=
  (add_memory_region vmC6a ⟨0x1000⟩ ⟨0x1000, 101⟩ false (Except.ok ())).2

/-- State after removing slot 0 in the C6 scenario. -/
def vmC6c : HaxmVm := (remove_memory_region vmC6b 0 (Except.ok ())).2

/-- C6 (counterexample): in the spec scenario the second add at guest address
0x1000 with size 0x1000 is claimed to fail with NoSpace; in fact, after a first
successful add at 0x1000 (slot 0), a second add of the identical range succeeds
(the overlap pre-check only guards against the static layout), so it does not
return ENOSPC. -/
theorem C6_counterexample :
    (add_memory_region (initVm []) ⟨0x1000⟩ ⟨0x1000, 100⟩ false (Except.ok ())).1 =
      Except.ok 0 ∧
    (add_memory_region vmC6a ⟨0x1000⟩ ⟨0x1000, 101⟩ false (Except.ok ())).1 ≠
      Except.error ENOSPC := by decide

/-- C6 (amended): add a region at 0x1000 size 0x1000 (slot 0); a second identical
add does not fail with NoSpace but succeeds with fresh slot 1 (overlap among
dynamically added regions is not checked); after removing slot 0, repeating the
same add succeeds and reuses slot 0 from the gap heap. -/
theorem C6_scenario :
    (add_memory_region (initVm []) ⟨0x1000⟩ ⟨0x1000, 100⟩ false (Except.ok ())).1 =
      Except.ok 0 ∧
    (add_memory_region vmC6a ⟨0x1000⟩ ⟨0x1000, 101⟩ false (Except.ok ())).1 =
      Except.ok 1 ∧
    (remove_memory_region vmC6b 0 (Except.ok ())).1 =
      Except.ok (⟨0x1000, 100⟩ : MappedRegion) ∧
    (add_memory_region vmC6c ⟨0x1000⟩ ⟨0x1000, 100⟩ false (Except.ok ())).1 =
      Except.ok 0 := by decide

/-- C7: round-trip. If add_memory_region(addr, mem) succeeds (driver ok) returning
slot s, then remove_memory_region(s) on the resulting state (driver ok) returns
exactly the mapping that was added, hence one with identical size and host
pointer. -/
theorem C7_roundtrip (vm : HaxmVm) (ga : GuestAddress) (mem : MappedRegion) (ro : Bool)
    (s : Nat) (h : (add_memory_region vm ga mem ro (Except.ok ())).1 = Except.ok s) :
    (remove_memory_region (add_memory_region vm ga mem ro (Except.ok ())).2 s
      (Except.ok ())).1 = Except.ok mem := by
  by_cases h1 : ga.offset + mem.size < U64_SIZE
  · by_cases h2 : range_overlap vm.guest_mem ga.offset (ga.offset + mem.size) = true
    · rw [add_eq_nospace vm ga mem ro (Except.ok ()) h1 h2] at h
      exact absurd h (by simp)
    · rw [Bool.not_eq_true] at h2
      cases hg : vm.mem_slot_gaps with
      | cons gap rest =>
        rw [add_eq_pop_ok vm ga mem ro gap rest h1 h2 hg] at h ⊢
        simp only [Except.ok.injEq] at h
        subst h
        rw [remove_eq_ok _ gap (ga, mem) (lookupSlot_insertSorted_self _ _ _ _)]
      | nil =>
        rw [add_eq_mint_ok vm ga mem ro h1 h2 hg] at h ⊢
        simp only [Except.ok.injEq] at h
        subst h
        rw [remove_eq_ok _ _ (ga, mem) (lookupSlot_insertSorted_self _ _ _ _)]
  · rw [add_eq_overflow vm ga mem ro (Except.ok ()) (by omega)] at h
    exact absurd h (by simp)

theorem C7_roundtrip_witness :
    (remove_memory_region
      (add_memory_region (initVm []) ⟨0x4000⟩ ⟨0x1000, 77⟩ false (Except.ok ())).2 0
      (Except.ok ())).1 = Except.ok (⟨0x1000, 77⟩ : MappedRegion) :=
  C7_roundtrip (initVm []) ⟨0x4000⟩ ⟨0x1000, 77⟩ false 0 (by decide)

/-- C8: for every registry state and address, register_ioevent and
unregister_ioevent with any datamatch discipline other than AnyLength fail with
ENOTSUP and leave the whole state (in particular the registry) unchanged. -/
theorem C8_unsupported_datamatch (vm : HaxmVm) (evt : Nat) (addr : IoEventAddress)
    (dm : Datamatch) (h : dm ≠ Datamatch.AnyLength) :
    register_ioevent vm evt addr dm = (Except.error ENOTSUP, vm) ∧
    unregister_ioevent vm evt addr dm = (Except.error ENOTSUP, vm) := by
  constructor
  · simp [register_ioevent, h]
  · simp [unregister_ioevent, h]

/-- Concrete io-event registry used by the C8 witness: an event is bound at the
probed address, showing the failure is independent of the address state. -/
def vmC8 : HaxmVm :=
  { guest_mem := [], mem_regions := [], mem_slot_gaps := []
    ioevents := [(IoEventAddress.Mmio 0x1000, 8)] }

theorem C8_unsupported_datamatch_witness :
    register_ioevent vmC8 9 (IoEventAddress.Mmio 0x1000) (Datamatch.U8 none) =
      (Except.error ENOTSUP, vmC8) ∧
    unregister_ioevent vmC8 9 (IoEventAddress.Mmio 0x1000) (Datamatch.U8 none) =
      (Except.error ENOTSUP, vmC8) :=
  C8_unsupported_datamatch vmC8 9 (IoEventAddress.Mmio 0x1000) (Datamatch.U8 none)
    (by decide)

/-- C9: handle_io_events(a, d) signals the bound event exactly once (one signal of
value 1) and returns success when an event is bound at a, and returns success with
no signal at all when no event is bound at a. -/
theorem C9_dispatch (vm : HaxmVm) (addr : IoEventAddress) (d : List Nat) :
    (∀ evt, lookupEvt vm.ioevents addr = some evt →
      handle_io_events vm addr d = (Except.ok (), [(evt, 1)])) ∧
    (lookupEvt vm.ioevents addr = none →
      handle_io_events vm addr d = (Except.ok (), [])) := by
  constructor
  · intro evt h
    simp [handle_io_events, h]
  · intro h
    simp [handle_io_events, h]

/-- Concrete io-event registry used by the C9 witness: event handle 9 at port 0xf4. -/
def vmC9 : HaxmVm :=
  { guest_mem := [], mem_regions := [], mem_slot_gaps := []
    ioevents := [(IoEventAddress.Pio 0xf4, 9)] }

theorem C9_dispatch_witness :
    handle_io_events vmC9 (IoEventAddress.Pio 0xf4) [1, 2] = (Except.ok (), [(9, 1)]) :=
  (C9_dispatch vmC9 (IoEventAddress.Pio 0xf4) [1, 2]).1 9 (by decide)

/-- C10: handle_io_events never inspects its data payload: for every registry
state, address, and any two payloads, the result and the emitted signals are
identical. -/
theorem C10_payload_independence (vm : HaxmVm) (addr : IoEventAddress)
    (d1 d2 : List Nat) :
    handle_io_events vm addr d1 = handle_io_events vm addr d2 := rfl

/-- State of the C1 scenario after adding a region at 0x1000 (slot 1, since one
static region occupies slot 0). -/
def vmC1a : HaxmVm :=
  (add_memory_region (initVm [(0, 0x1000)]) ⟨0x1000⟩ ⟨0x1000, 7⟩ false (Except.ok ())).2

/-- State of the C1 scenario after adding a second region at the same address. -/
def vmC1b : HaxmVm :=
  (add_memory_region vmC1a ⟨0x1000⟩ ⟨0x1000, 8⟩ false (Except.ok ())).2

/-- C1 (counterexample): the no-overlap half of the claim is false: from a fresh vm
with static region (0, 0x1000), two successive successful adds at guest address
0x1000 with size 0x1000 reach a state whose live slots 1 and 2 are both mapped at
the identical (hence intersecting) guest range. -/
theorem C1_counterexample :
    ReachLive [(0, 0x1000)] vmC1b [2, 1] ∧
    lookupSlot vmC1b.mem_regions 1 = some (⟨0x1000⟩, ⟨0x1000, 7⟩) ∧
    lookupSlot vmC1b.mem_regions 2 = some (⟨0x1000⟩, ⟨0x1000, 8⟩) ∧
    max 0x1000 0x1000 < min (0x1000 + 0x1000) (0x1000 + 0x1000) := by
  refine ⟨?_, by decide, by decide, by decide⟩
  have h1 : ReachLive [(0, 0x1000)] vmC1a [1] :=
    ReachLive.add_ok (initVm [(0, 0x1000)]) [] ⟨0x1000⟩ ⟨0x1000, 7⟩ false (Except.ok ())
      1 vmC1a ReachLive.init (by decide)
  exact ReachLive.add_ok vmC1a [1] ⟨0x1000⟩ ⟨0x1000, 8⟩ false (Except.ok ()) 2 vmC1b h1
    (by decide)

/-- C1 (amended): for every sequence of add/remove calls during which the slot
numbers in play (static regions plus live slots plus reclaimed gaps) stay below
2 ^ 32, the set of live slots is exactly the key set of the slot table; each live
region's range is disjoint from the static guest layout, but live regions may
overlap each other (the overlap pre-check only guards against the static layout). -/
theorem C1_live_slots_eq_keys (sm : List (Nat × Nat)) (vm : HaxmVm) (L : List Nat)
    (h : ReachLive sm vm L)
    (hb : sm.length + vm.mem_regions.length + vm.mem_slot_gaps.length < U32_SIZE) :
    (∀ s, s ∈ L ↔ s ∈ keysOf vm.mem_regions) ∧
    (∀ e ∈ vm.mem_regions,
      range_overlap sm e.2.1.offset (e.2.1.offset + e.2.2.size) = false) := by
  have hInv := reach_inv h hb
  exact ⟨hInv.live_iff, hInv.static_ok⟩

/-- State used by the C1 witness: one successful add on a fresh vm. -/
def vmC1w : HaxmVm :=
  (add_memory_region (initVm [(0, 0x1000)]) ⟨0x2000⟩ ⟨0x1000, 3⟩ false (Except.ok ())).2

theorem C1_live_slots_eq_keys_witness :
    (∀ s, s ∈ [1] ↔ s ∈ keysOf vmC1w.mem_regions) ∧
    (∀ e ∈ vmC1w.mem_regions,
      range_overlap [(0, 0x1000)] e.2.1.offset (e.2.1.offset + e.2.2.size) = false) :=
  C1_live_slots_eq_keys [(0, 0x1000)] vmC1w [1]
    (ReachLive.add_ok (initVm [(0, 0x1000)]) [] ⟨0x2000⟩ ⟨0x1000, 3⟩ false (Except.ok ())
      1 vmC1w ReachLive.init (by decide))
    (by decide)

/-- A slot table holding n one-byte regions at guest address 0 under slots
0, 1, ..., n - 1 (the empty static layout never forces an ENOSPC failure). -/
def regionsN (n : Nat) : List (Nat × GuestAddress × MappedRegion) :=
  (List.range n).map (fun i => (i, ⟨0⟩, ⟨1, 0⟩))

/-- The vm state with no static memory and n regions added. -/
def vmN (n : Nat) : HaxmVm :=
  { guest_mem := [], mem_regions := regionsN n, mem_slot_gaps := [], ioevents := [] }

theorem keysOf_regionsN (n : Nat) : keysOf (regionsN n) = List.range n := by
  simp [keysOf, regionsN, List.map_map]
  exact List.map_id _

theorem regionsN_succ (n : Nat) : regionsN (n + 1) = regionsN n ++ [(n, ⟨0⟩, ⟨1, 0⟩)] := by
  simp [regionsN, List.range_succ]

theorem length_regionsN (n : Nat) : (regionsN n).length = n := by
  simp [regionsN]

theorem vmN_regions (n : Nat) : (vmN n).mem_regions = regionsN n := rfl

theorem vmN_mint_value (n : Nat) :
    (vmN n).mem_regions.length + (vmN n).guest_mem.length = n := by
  simp [vmN, length_regionsN]

theorem add_vmN (n : Nat) (hn : n < U32_SIZE) :
    add_memory_region (vmN n) ⟨0⟩ ⟨1, 0⟩ false (Except.ok ()) =
      (Except.ok n, vmN (n + 1)) := by
  have h1 : (GuestAddress.mk 0).offset + (MappedRegion.mk 1 0).size < U64_SIZE := by
    decide
  have h2 : range_overlap (vmN n).guest_mem (GuestAddress.mk 0).offset
      ((GuestAddress.mk 0).offset + (MappedRegion.mk 1 0).size) = false := rfl
  have h3 : (vmN n).mem_slot_gaps = [] := rfl
  rw [add_eq_mint_ok (vmN n) ⟨0⟩ ⟨1, 0⟩ false h1 h2 h3]
  rw [vmN_mint_value, Nat.mod_eq_of_lt hn]
  have hins : insertSorted (vmN n).mem_regions n ⟨0⟩ ⟨1, 0⟩ = regionsN (n + 1) := by
    show insertSorted (regionsN n) n ⟨0⟩ ⟨1, 0⟩ = regionsN (n + 1)
    rw [insertSorted_append ⟨0⟩ ⟨1, 0⟩ ?_, regionsN_succ]
    intro t ht
    rw [keysOf_regionsN] at ht
    exact List.mem_range.mp ht
  simp only [Prod.mk.injEq]
  refine ⟨trivial, ?_⟩
  show ({ vmN n with mem_regions := insertSorted (vmN n).mem_regions n ⟨0⟩ ⟨1, 0⟩ } :
    HaxmVm) = vmN (n + 1)
  rw [hins]
  rfl

theorem reach_vmN (n : Nat) (hn : n ≤ U32_SIZE) :
    ReachLive [] (vmN n) (List.range n).reverse := by
  induction n with
  | zero => exact ReachLive.init
  | succ k ih =>
    have hk : k < U32_SIZE := by omega
    have hstep := ReachLive.add_ok (vmN k) (List.range k).reverse ⟨0⟩ ⟨1, 0⟩ false
      (Except.ok ()) k (vmN (k + 1)) (ih (by omega)) (add_vmN k hk)
    have hrev : (List.range (k + 1)).reverse = k :: (List.range k).reverse := by
      rw [List.range_succ, List.reverse_append]
      rfl
    rw [hrev]
    exact hstep

/-- C4 (counterexample): the freshness half of the claim is false in the large: in
a reachable state with no static regions and 2 ^ 32 live slots (slots 0 to
2 ^ 32 - 1), a further add succeeds and returns slot (2 ^ 32) mod 2 ^ 32 = 0 --
because the source truncates the minted number with an `as MemSlot` u32 cast --
even though slot 0 is currently present in the slot table (the insert silently
replaces the old entry). -/
theorem C4_counterexample :
    ReachLive [] (vmN U32_SIZE) (List.range U32_SIZE).reverse ∧
    (add_memory_region (vmN U32_SIZE) ⟨0⟩ ⟨1, 0⟩ false (Except.ok ())).1 =
      Except.ok 0 ∧
    0 ∈ keysOf (vmN U32_SIZE).mem_regions := by
  refine ⟨reach_vmN U32_SIZE (le_refl _), ?_, ?_⟩
  · rw [add_eq_mint_ok (vmN U32_SIZE) ⟨0⟩ ⟨1, 0⟩ false (by decide) rfl rfl]
    simp only [vmN_mint_value, Nat.mod_self]
  · rw [vmN_regions, keysOf_regionsN]
    refine List.mem_range.mpr ?_
    show 0 < 2 ^ 32
    positivity

/-- C4 (amended): while the slot numbers in play stay below 2 ^ 32, a successful
add_memory_region pops the smallest reclaimed slot from the gap heap if it is
non-empty, otherwise mints slot-table-size + static-region-count, and the returned
slot is never currently present in the slot table. -/
theorem C4_slot_allocation (sm : List (Nat × Nat)) (vm : HaxmVm) (L : List Nat)
    (ga : GuestAddress) (mem : MappedRegion) (ro : Bool) (dres : Except Nat Unit)
    (s : Nat) (h : ReachLive sm vm L)
    (hb : sm.length + vm.mem_regions.length + vm.mem_slot_gaps.length < U32_SIZE)
    (hok : (add_memory_region vm ga mem ro dres).1 = Except.ok s) :
    s ∉ keysOf vm.mem_regions ∧
    (∀ gap rest, vm.mem_slot_gaps = gap :: rest →
      s = gap ∧ ∀ x ∈ vm.mem_slot_gaps, s ≤ x) ∧
    (vm.mem_slot_gaps = [] → s = vm.mem_regions.length + sm.length) := by
  have hInv := reach_inv h hb
  by_cases h1 : ga.offset + mem.size < U64_SIZE
  · by_cases h2 : range_overlap vm.guest_mem ga.offset (ga.offset + mem.size) = true
    · rw [add_eq_nospace vm ga mem ro dres h1 h2] at hok
      exact absurd hok (by simp)
    · rw [Bool.not_eq_true] at h2
      cases hg : vm.mem_slot_gaps with
      | cons gap rest =>
        cases dres with
        | error e =>
          rw [add_eq_pop_err vm ga mem ro e gap rest h1 h2 hg] at hok
          exact absurd hok (by simp)
        | ok u =>
          cases u
          rw [add_eq_pop_ok vm ga mem ro gap rest h1 h2 hg] at hok
          simp only [Except.ok.injEq] at hok
          subst hok
          have hgap_mem : gap ∈ vm.mem_slot_gaps := by
            rw [hg]
            exact List.mem_cons_self _ _
          refine ⟨fun hk => hInv.disj gap hk hgap_mem, ?_, ?_⟩
          · intro gap2 rest2 hg2
            injection hg2 with hga hre
            subst hga
            refine ⟨rfl, ?_⟩
            intro x hx
            have hsor : List.Pairwise (· < ·) (gap :: rest) := by
              rw [← hg]
              exact hInv.gsorted
            exact sorted_head_le hsor x hx
          · intro hnil
            exact absurd hnil (by simp)
      | nil =>
        cases dres with
        | error e =>
          rw [add_eq_mint_err vm ga mem ro e h1 h2 hg] at hok
          exact absurd hok (by simp)
        | ok u =>
          cases u
          rw [add_eq_mint_ok vm ga mem ro h1 h2 hg] at hok
          simp only [Except.ok.injEq] at hok
          have hsm : vm.guest_mem.length = sm.length := by rw [hInv.guest_eq]
          have hg_len : vm.mem_slot_gaps.length = 0 := by rw [hg]; rfl
          have hmod : (vm.mem_regions.length + vm.guest_mem.length) % U32_SIZE =
              vm.mem_regions.length + sm.length := by
            rw [hsm]
            exact Nat.mod_eq_of_lt (by omega)
          rw [hmod] at hok
          subst hok
          refine ⟨?_, ?_, fun _ => rfl⟩
          · intro hk
            have hr := (hInv.range_iff _).mp (Or.inl hk)
            omega
          · intro gap2 rest2 hg2
            exact absurd hg2.symm (by simp)
  · rw [add_eq_overflow vm ga mem ro dres (by omega)] at hok
    exact absurd hok (by simp)

theorem C4_slot_allocation_witness :
    (1 : Nat) ∉ keysOf (initVm [(0, 0x10)]).mem_regions ∧
    (∀ gap rest, (initVm [(0, 0x10)]).mem_slot_gaps = gap :: rest →
      (1 : Nat) = gap ∧ ∀ x ∈ (initVm [(0, 0x10)]).mem_slot_gaps, 1 ≤ x) ∧
    ((initVm [(0, 0x10)]).mem_slot_gaps = [] →
      (1 : Nat) = (initVm [(0, 0x10)]).mem_regions.length + [((0 : Nat), (0x10 : Nat))].length) :=
  C4_slot_allocation [(0, 0x10)] (initVm [(0, 0x10)]) [] ⟨0x100⟩ ⟨0x10, 3⟩ false
    (Except.ok ()) 1 ReachLive.init (by decide) (by decide)

end Haxm
